import Mathlib

/-!
Verification of the edge-computation and risk-constrained position-sizing
core of a sports-betting decision engine.

The Python source is shallowly embedded: floats become rationals (ℚ),
dictionaries with a zero default become functions `String → ℚ`, and the
one unguarded division (in `kelly_fraction`) is modelled with `Option`,
`none` standing for the `ZeroDivisionError` the source would raise.
-/

/-- Risk/strategy configuration (the fields of `config.Config` that the
core consumes). -/
structure Config where
  edge_threshold : ℚ
  kelly_factor : ℚ
  max_per_bet_pct : ℚ
  max_per_game_pct : ℚ
  max_daily_risk_pct : ℚ
  max_per_team_pct : ℚ

/-- An open position (`models.Position`). -/
structure Position where
  market_id : String
  game_id : String
  team : String
  league : String
  quantity : ℤ
  average_price : ℚ
  current_yes_price : ℚ
  unrealized_pnl : ℚ
  max_loss : ℚ

/-- The mutable state of `risk_engine.RiskEngine`; the three exposure
defaultdicts are total functions defaulting to 0. -/
structure RiskEngine where
  config : Config
  bankroll : ℚ
  positions : List Position
  exposure_by_game : String → ℚ
  exposure_by_team : String → ℚ
  exposure_by_league : String → ℚ
  total_daily_risk : ℚ

/-- The freshly constructed engine (`RiskEngine.__init__`). -/
def RiskEngine.init (config : Config) : RiskEngine :=
  { config := config
    bankroll := 0
    positions := []
    exposure_by_game := fun _ => 0
    exposure_by_team := fun _ => 0
    exposure_by_league := fun _ => 0
    total_daily_risk := 0 }

/-- Exposure contribution of one position, as computed inside the loop of
`update_from_positions`: `max_loss` when strictly positive, otherwise
`quantity * average_price`. -/
def positionLoss (position : Position) : ℚ :=
  if 0 < position.max_loss then position.max_loss
  else (position.quantity : ℚ) * position.average_price

/-- One iteration of the loop in `RiskEngine.update_from_positions`:
add one position's max loss to the daily total and to the three exposure
maps. -/
def applyPosition (r : RiskEngine) (position : Position) : RiskEngine :=
  let max_loss := positionLoss position
  { r with
    total_daily_risk := r.total_daily_risk + max_loss
    exposure_by_game := fun g =>
      if g = position.game_id then r.exposure_by_game g + max_loss
      else r.exposure_by_game g
    exposure_by_team := fun t =>
      if t = position.team then r.exposure_by_team t + max_loss
      else r.exposure_by_team t
    exposure_by_league := fun l =>
      if l = position.league then r.exposure_by_league l + max_loss
      else r.exposure_by_league l }

/-- `RiskEngine.update_from_positions`: store bankroll and positions,
clear all exposure tracking, then fold the positions back in. -/
def update_from_positions (r : RiskEngine) (positions : List Position)
    (bankroll : ℚ) : RiskEngine :=
  let cleared : RiskEngine :=
    { config := r.config
      bankroll := bankroll
      positions := positions
      exposure_by_game := fun _ => 0
      exposure_by_team := fun _ => 0
      exposure_by_league := fun _ => 0
      total_daily_risk := 0 }
  positions.foldl applyPosition cleared

/-- `RiskEngine.can_take_trade`: three sequential limit checks, each an
early `return False`; the `league` argument is accepted but unused, as in
the source. -/
def can_take_trade (r : RiskEngine) (stake : ℚ)
    (game_id team league : String) : Bool :=
  if r.total_daily_risk + stake > r.config.max_daily_risk_pct * r.bankroll then
    false
  else if r.exposure_by_game game_id + stake >
      r.config.max_per_game_pct * r.bankroll then
    false
  else if r.exposure_by_team team + stake >
      r.config.max_per_team_pct * r.bankroll then
    false
  else
    true

/-- `RiskEngine.remaining_daily_risk`. -/
def remaining_daily_risk (r : RiskEngine) : ℚ :=
  max 0 (r.config.max_daily_risk_pct * r.bankroll - r.total_daily_risk)

/-- `RiskEngine.cap_stake`: clamp through the per-bet cap, the remaining
daily capacity, the remaining per-game capacity and the remaining per-team
capacity, in that order, then floor at 0. -/
def cap_stake (r : RiskEngine) (raw_stake : ℚ)
    (game_id team league : String) : ℚ :=
  let max_per_bet := r.config.max_per_bet_pct * r.bankroll
  let stake1 := min raw_stake max_per_bet
  let stake2 := min stake1 (remaining_daily_risk r)
  let remaining_game :=
    max 0 (r.config.max_per_game_pct * r.bankroll - r.exposure_by_game game_id)
  let stake3 := min stake2 remaining_game
  let remaining_team :=
    max 0 (r.config.max_per_team_pct * r.bankroll - r.exposure_by_team team)
  let stake4 := min stake3 remaining_team
  max 0 stake4

/-- The per-bet cap used as the first clamp of `cap_stake`. -/
def perBetCap (r : RiskEngine) : ℚ :=
  r.config.max_per_bet_pct * r.bankroll

/-- The remaining per-game capacity used as the third clamp of
`cap_stake`. -/
def remainingGame (r : RiskEngine) (game_id : String) : ℚ :=
  max 0 (r.config.max_per_game_pct * r.bankroll - r.exposure_by_game game_id)

/-- The remaining per-team capacity used as the fourth clamp of
`cap_stake`. -/
def remainingTeam (r : RiskEngine) (team : String) : ℚ :=
  max 0 (r.config.max_per_team_pct * r.bankroll - r.exposure_by_team team)

/-- `strategy.american_to_implied_prob`. -/
def american_to_implied_prob (odds : ℤ) : ℚ :=
  if odds < 0 then ((-odds : ℤ) : ℚ) / (((-odds : ℤ) : ℚ) + 100)
  else 100 / ((odds : ℚ) + 100)

/-- `strategy.remove_vig`. -/
def remove_vig (p_a_raw p_b_raw : ℚ) : ℚ × ℚ :=
  let total := p_a_raw + p_b_raw
  if total = 0 then (1/2, 1/2)
  else (p_a_raw / total, p_b_raw / total)

/-- The `combined_prob` computed inline in `strategy.calc_edge` (including
its fallback to `fair_prob` when `research_prob` is absent or not strictly
inside `(0,1)`). -/
def edgeCombinedProb (fair_prob : ℚ) (research_prob : Option ℚ)
    (research_confidence : Option String) : ℚ :=
  match research_prob with
  | some rp =>
    if 0 < rp ∧ rp < 1 then
      let research_weight : ℚ :=
        if research_confidence = some "HIGH" then 0.85
        else if research_confidence = some "MEDIUM" then 0.70
        else if research_confidence = some "LOW" then 0.50
        else 0.70
      research_weight * rp + (1 - research_weight) * fair_prob
    else fair_prob
  | none => fair_prob

/-- `strategy.calc_edge`: blended probability minus the Kalshi price. -/
def calc_edge (fair_prob kalshi_price : ℚ) (research_prob : Option ℚ)
    (research_confidence : Option String) : ℚ :=
  edgeCombinedProb fair_prob research_prob research_confidence - kalshi_price

/-- The `combined_prob` recomputed inline in the orchestrator loop of
`runner.py` just before Kelly sizing: it blends whenever `research_prob`
is present, with no check that it lies strictly inside `(0,1)`. -/
def runnerCombinedProb (fair_prob : ℚ) (research_prob : Option ℚ)
    (research_confidence : Option String) : ℚ :=
  match research_prob with
  | none => fair_prob
  | some rp =>
    let research_weight : ℚ :=
      if research_confidence = some "HIGH" then 0.85
      else if research_confidence = some "MEDIUM" then 0.70
      else if research_confidence = some "LOW" then 0.50
      else 0.70
    research_weight * rp + (1 - research_weight) * fair_prob

/-- The confidence multiplier branch of `strategy.kelly_fraction`. -/
def confidenceMultiplier (research_confidence : Option String) : ℚ :=
  if research_confidence = some "HIGH" then 1.0
  else if research_confidence = some "MEDIUM" then 0.9
  else if research_confidence = some "LOW" then 0.7
  else 0.8

/-- `strategy.kelly_fraction`; `none` models the `ZeroDivisionError` the
source raises when `1.0 - market_prob` is zero (reached only when
`fair_prob > market_prob`, because of the early return). -/
def kelly_fraction (fair_prob market_prob kelly_factor : ℚ)
    (research_confidence : Option String) : Option ℚ :=
  if fair_prob ≤ market_prob then some 0
  else if (1 : ℚ) - market_prob = 0 then none
  else
    let base := (fair_prob - market_prob) / (1 - market_prob)
    let base_kelly := base * kelly_factor
    some (max 0 (base_kelly * confidenceMultiplier research_confidence))

/-- A concrete configuration carrying the source defaults
(EDGE_THRESHOLD 0.07, KELLY_FACTOR 0.25, MAX_PER_BET_PCT 0.02,
MAX_PER_GAME_PCT 0.05, MAX_DAILY_RISK_PCT 0.10, MAX_PER_TEAM_PCT 0.08),
used for concrete evaluations. -/
def sampleConfig : Config :=
  { edge_threshold := 0.07
    kelly_factor := 0.25
    max_per_bet_pct := 0.02
    max_per_game_pct := 0.05
    max_daily_risk_pct := 0.10
    max_per_team_pct := 0.08 }

/-- A concrete engine: default configuration, no open positions, bankroll
10000. -/
def sampleEngine : RiskEngine :=
  update_from_positions (RiskEngine.init sampleConfig) [] 10000

example : cap_stake sampleEngine 5000 "g" "t" "l" = 200 := by
  norm_num [cap_stake, sampleEngine, update_from_positions, RiskEngine.init,
    sampleConfig, remaining_daily_risk]

example : can_take_trade sampleEngine 900 "g" "t" "l" = false := by
  norm_num [can_take_trade, sampleEngine, update_from_positions,
    RiskEngine.init, sampleConfig]

example : remove_vig (3/5) (2/5) = (3/5, 2/5) := by
  norm_num [remove_vig]

example : kelly_fraction (3/5) (1/2) (1/4) none = some (1/25) := by
  simp [kelly_fraction, confidenceMultiplier]
  norm_num

/-- Closed form of `cap_stake`: the floor at 0 of the left-nested minimum
of the raw stake with the four caps, in source order. -/
lemma cap_stake_eq (r : RiskEngine) (raw : ℚ) (g t l : String) :
    cap_stake r raw g t l =
      max 0 (min (min (min (min raw (perBetCap r)) (remaining_daily_risk r))
        (remainingGame r g)) (remainingTeam r t)) := rfl

/-- Characterization of the risk gate: the trade passes exactly when all
three post-trade exposures stay at or below their caps. -/
lemma canTakeTrade_true_iff (r : RiskEngine) (stake : ℚ) (g t l : String) :
    can_take_trade r stake g t l = true ↔
      (r.total_daily_risk + stake ≤ r.config.max_daily_risk_pct * r.bankroll ∧
       r.exposure_by_game g + stake ≤ r.config.max_per_game_pct * r.bankroll ∧
       r.exposure_by_team t + stake ≤ r.config.max_per_team_pct * r.bankroll) := by
  unfold can_take_trade
  split_ifs with h1 h2 h3
  · simp only [Bool.false_eq_true, false_iff]
    intro hc
    exact absurd h1 (not_lt.mpr hc.1)
  · simp only [Bool.false_eq_true, false_iff]
    intro hc
    exact absurd h2 (not_lt.mpr hc.2.1)
  · simp only [Bool.false_eq_true, false_iff]
    intro hc
    exact absurd h3 (not_lt.mpr hc.2.2)
  · simp only [true_iff]
    exact ⟨not_lt.mp h1, not_lt.mp h2, not_lt.mp h3⟩

/-- C1: `cap_stake` returns the 0-floored minimum of the raw stake with
the per-bet cap, the remaining daily-risk capacity, the remaining per-game
capacity and the remaining per-team capacity, and the result does not
depend on the order in which the four clamps are applied: folding `min`
through any permutation of the four caps gives the same value. -/
theorem cap_stake_min_order_independent (r : RiskEngine) (raw : ℚ)
    (g t l : String) (caps : List ℚ)
    (hperm : caps.Perm
      [perBetCap r, remaining_daily_risk r, remainingGame r g, remainingTeam r t]) :
    cap_stake r raw g t l = max 0 (caps.foldl min raw) := by
  rw [hperm.foldl_eq raw]
  rfl

/-- Witness for C1: concrete engine (bankroll 10000, default caps, no
exposure); the caps are 200, 1000, 500, 800, supplied here in a shuffled
order, and the raw stake 5000 is capped to 200. -/
theorem cap_stake_min_order_independent_witness :
    cap_stake sampleEngine 5000 "g" "t" "l" =
      max 0 (List.foldl min 5000 [1000, 800, 200, 500]) :=
  cap_stake_min_order_independent sampleEngine 5000 "g" "t" "l"
    [1000, 800, 200, 500] (by
      have hb : perBetCap sampleEngine = 200 := by
        norm_num [perBetCap, sampleEngine, update_from_positions,
          RiskEngine.init, sampleConfig]
      have hd : remaining_daily_risk sampleEngine = 1000 := by
        norm_num [remaining_daily_risk, sampleEngine, update_from_positions,
          RiskEngine.init, sampleConfig]
      have hg : remainingGame sampleEngine "g" = 500 := by
        norm_num [remainingGame, sampleEngine, update_from_positions,
          RiskEngine.init, sampleConfig]
      have ht : remainingTeam sampleEngine "t" = 800 := by
        norm_num [remainingTeam, sampleEngine, update_from_positions,
          RiskEngine.init, sampleConfig]
      rw [hb, hd, hg, ht]
      exact (List.Perm.cons 1000 (List.Perm.swap 200 800 [500])).trans
        ((List.Perm.swap 200 1000 [800, 500]).trans
          (List.Perm.cons 200
            (List.Perm.cons 1000 (List.Perm.swap 500 800 [])))))

/-- C2: the risk gate returns false exactly when adding the stake would
push total daily risk, per-game exposure or per-team exposure strictly
above its cap, and true exactly when all three stay at or below their
caps (the checks are AND-combined). -/
theorem can_take_trade_rejects_iff (r : RiskEngine) (stake : ℚ)
    (g t l : String) :
    (can_take_trade r stake g t l = false ↔
      (r.config.max_daily_risk_pct * r.bankroll < r.total_daily_risk + stake ∨
       r.config.max_per_game_pct * r.bankroll < r.exposure_by_game g + stake ∨
       r.config.max_per_team_pct * r.bankroll < r.exposure_by_team t + stake)) ∧
    (can_take_trade r stake g t l = true ↔
      (r.total_daily_risk + stake ≤ r.config.max_daily_risk_pct * r.bankroll ∧
       r.exposure_by_game g + stake ≤ r.config.max_per_game_pct * r.bankroll ∧
       r.exposure_by_team t + stake ≤ r.config.max_per_team_pct * r.bankroll)) := by
  have h := canTakeTrade_true_iff r stake g t l
  refine ⟨?_, h⟩
  rw [← Bool.not_eq_true, h]
  push_neg
  constructor
  · intro hc
    by_cases h1 : r.total_daily_risk + stake ≤ r.config.max_daily_risk_pct * r.bankroll
    · by_cases h2 : r.exposure_by_game g + stake ≤ r.config.max_per_game_pct * r.bankroll
      · exact Or.inr (Or.inr (hc h1 h2))
      · exact Or.inr (Or.inl (not_le.mp h2))
    · exact Or.inl (not_le.mp h1)
  · intro hc h1 h2
    rcases hc with hc | hc | hc
    · exact absurd h1 (not_le.mpr hc)
    · exact absurd h2 (not_le.mpr hc)
    · exact hc

/-- Raw implied probabilities are strictly positive for every American
odds value. -/
lemma american_to_implied_prob_pos (odds : ℤ) :
    0 < american_to_implied_prob odds := by
  unfold american_to_implied_prob
  split_ifs with h
  · have hpos : (0 : ℚ) < ((-odds : ℤ) : ℚ) := by
      exact_mod_cast Int.neg_pos.mpr h
    exact div_pos hpos (by linarith)
  · have hnn : (0 : ℚ) ≤ ((odds : ℤ) : ℚ) := by
      exact_mod_cast not_lt.mp h
    exact div_pos (by norm_num) (by linarith)

/-- The two outputs of `remove_vig` sum to exactly 1 whenever the raw
inputs do not sum to 0. -/
lemma remove_vig_sum_eq_one (x y : ℚ) (h : x + y ≠ 0) :
    (remove_vig x y).1 + (remove_vig x y).2 = 1 := by
  unfold remove_vig
  rw [if_neg h]
  show x / (x + y) + y / (x + y) = 1
  rw [div_add_div_same, div_self h]

/-- C4: for every pair of nonzero American odds the de-vigged pair sums
to exactly 1, and in general the two outputs of `remove_vig` sum to 1 for
every raw pair with nonzero sum. -/
theorem remove_vig_normalizes (a b : ℤ) (x y : ℚ)
    (ha : a ≠ 0) (hb : b ≠ 0) (hxy : x + y ≠ 0) :
    ((remove_vig (american_to_implied_prob a) (american_to_implied_prob b)).1 +
      (remove_vig (american_to_implied_prob a) (american_to_implied_prob b)).2
        = 1) ∧
    ((remove_vig x y).1 + (remove_vig x y).2 = 1) := by
  refine ⟨remove_vig_sum_eq_one _ _ ?_, remove_vig_sum_eq_one x y hxy⟩
  have h1 := american_to_implied_prob_pos a
  have h2 := american_to_implied_prob_pos b
  positivity

/-- Witness for C4: the odds pair (-150, +130) and the raw pair
(0.6, 0.55) both de-vig to pairs summing to 1. -/
theorem remove_vig_normalizes_witness :
    ((remove_vig (american_to_implied_prob (-150))
        (american_to_implied_prob 130)).1 +
      (remove_vig (american_to_implied_prob (-150))
        (american_to_implied_prob 130)).2 = 1) ∧
    ((remove_vig (3/5) (11/20)).1 + (remove_vig (3/5) (11/20)).2 = 1) :=
  remove_vig_normalizes (-150) 130 (3/5) (11/20)
    (by decide) (by decide) (by norm_num)

/-- C8: on a degenerate input whose raw probabilities sum to zero,
`remove_vig` returns the neutral pair (1/2, 1/2) instead of dividing by
zero. -/
theorem remove_vig_degenerate (x y : ℚ) (h : x + y = 0) :
    remove_vig x y = (1/2, 1/2) := by
  unfold remove_vig
  rw [if_pos h]

/-- Witness for C8: `remove_vig 0 0 = (1/2, 1/2)`. -/
theorem remove_vig_degenerate_witness :
    remove_vig 0 0 = (1/2, 1/2) :=
  remove_vig_degenerate 0 0 (by norm_num)

/-- Evaluation of `kelly_fraction` when the edge is non-positive: the
early return of 0. -/
lemma kelly_fraction_of_le (f m k : ℚ) (c : Option String) (h : f ≤ m) :
    kelly_fraction f m k c = some 0 := by
  simp [kelly_fraction, h]

/-- Evaluation of `kelly_fraction` on the main branch. -/
lemma kelly_fraction_of_gt (f m k : ℚ) (c : Option String)
    (h : ¬ f ≤ m) (hm : (1 : ℚ) - m ≠ 0) :
    kelly_fraction f m k c =
      some (max 0 ((f - m) / (1 - m) * k * confidenceMultiplier c)) := by
  simp [kelly_fraction, h, hm]

/-- `kelly_fraction` raises (returns `none`) exactly on the unguarded
division: positive edge against a market price of 1. -/
lemma kelly_fraction_isNone (f m k : ℚ) (c : Option String)
    (h : ¬ f ≤ m) (hm : (1 : ℚ) - m = 0) :
    kelly_fraction f m k c = none := by
  simp [kelly_fraction, h, hm]

/-- C5: for fixed market price, Kelly factor and confidence tag,
`kelly_fraction` is monotonically non-decreasing in the fair probability:
whenever both calls return a value, the value at the smaller fair
probability is at most the value at the larger one. -/
theorem kelly_fraction_monotone_in_fair_prob (f1 f2 m k : ℚ)
    (c : Option String) (v1 v2 : ℚ) (hf : f1 ≤ f2)
    (h1 : kelly_fraction f1 m k c = some v1)
    (h2 : kelly_fraction f2 m k c = some v2) : v1 ≤ v2 := by
  by_cases hf1 : f1 ≤ m
  · rw [kelly_fraction_of_le f1 m k c hf1] at h1
    have hv1 : v1 = 0 := (Option.some.inj h1).symm
    subst hv1
    by_cases hf2 : f2 ≤ m
    · rw [kelly_fraction_of_le f2 m k c hf2] at h2
      exact (Option.some.inj h2).symm.ge
    · by_cases hm : (1 : ℚ) - m = 0
      · rw [kelly_fraction_isNone f2 m k c hf2 hm] at h2
        exact Option.noConfusion h2
      · rw [kelly_fraction_of_gt f2 m k c hf2 hm] at h2
        have hv2 := (Option.some.inj h2).symm
        rw [hv2]
        exact le_max_left _ _
  · have hf2 : ¬ f2 ≤ m := fun hh => hf1 (le_trans hf hh)
    by_cases hm : (1 : ℚ) - m = 0
    · rw [kelly_fraction_isNone f1 m k c hf1 hm] at h1
      exact Option.noConfusion h1
    · rw [kelly_fraction_of_gt f1 m k c hf1 hm] at h1
      rw [kelly_fraction_of_gt f2 m k c hf2 hm] at h2
      have hv1 := (Option.some.inj h1).symm
      have hv2 := (Option.some.inj h2).symm
      rw [hv1, hv2]
      have ha : (f1 - m) / (1 - m) * k * confidenceMultiplier c =
          (f1 - m) * (k * confidenceMultiplier c / (1 - m)) := by ring
      have hb : (f2 - m) / (1 - m) * k * confidenceMultiplier c =
          (f2 - m) * (k * confidenceMultiplier c / (1 - m)) := by ring
      rw [ha, hb]
      rcases le_or_lt (k * confidenceMultiplier c / (1 - m)) 0 with hD | hD
      · have h1n : (f1 - m) * (k * confidenceMultiplier c / (1 - m)) ≤ 0 :=
          mul_nonpos_of_nonneg_of_nonpos (by linarith [not_le.mp hf1]) hD
        have h2n : (f2 - m) * (k * confidenceMultiplier c / (1 - m)) ≤ 0 :=
          mul_nonpos_of_nonneg_of_nonpos (by linarith [not_le.mp hf2]) hD
        rw [max_eq_left h1n, max_eq_left h2n]
      · exact max_le_max le_rfl
          (mul_le_mul_of_nonneg_right (by linarith) hD.le)

/-- Witness for C5: fair probabilities 0.55 ≤ 0.60 against market price
0.5 with quarter-Kelly and no confidence tag give stakes 0.02 ≤ 0.04. -/
theorem kelly_fraction_monotone_in_fair_prob_witness : (1 : ℚ)/50 ≤ 1/25 :=
  kelly_fraction_monotone_in_fair_prob (11/20) (3/5) (1/2) (1/4) none
    (1/50) (1/25) (by norm_num)
    (by simp [kelly_fraction, confidenceMultiplier]; norm_num)
    (by simp [kelly_fraction, confidenceMultiplier]; norm_num)

/-- The remaining daily capacity is never negative. -/
lemma remaining_daily_risk_nonneg (r : RiskEngine) :
    0 ≤ remaining_daily_risk r := le_max_left _ _

/-- The remaining per-game capacity is never negative. -/
lemma remainingGame_nonneg (r : RiskEngine) (g : String) :
    0 ≤ remainingGame r g := le_max_left _ _

/-- The remaining per-team capacity is never negative. -/
lemma remainingTeam_nonneg (r : RiskEngine) (t : String) :
    0 ≤ remainingTeam r t := le_max_left _ _

/-- Counterexample to C6 as stated: with a negative raw stake the 0-floor
makes `cap_stake` return 0, which is strictly greater than the raw stake,
so the output is not always at most `raw_stake`. -/
theorem cap_stake_exceeds_negative_raw :
    ¬ (cap_stake sampleEngine (-1) "g" "t" "l" ≤ -1) := by
  have h : cap_stake sampleEngine (-1) "g" "t" "l" = 0 := by
    norm_num [cap_stake, sampleEngine, update_from_positions,
      RiskEngine.init, sampleConfig, remaining_daily_risk]
  rw [h]
  norm_num

/-- C6 (amended): when the raw stake is nonnegative and the per-bet cap
is nonnegative, `cap_stake` returns a value between 0 and `raw_stake`
that also never exceeds any of the four individual caps; the lower bound
0 holds unconditionally, but for a negative raw stake (or a negative
per-bet cap) the 0-floor can exceed `raw_stake` (or the cap). -/
theorem cap_stake_bounds (r : RiskEngine) (raw : ℚ) (g t l : String)
    (hraw : 0 ≤ raw) (hbet : 0 ≤ perBetCap r) :
    cap_stake r raw g t l ≤ raw ∧
    0 ≤ cap_stake r raw g t l ∧
    cap_stake r raw g t l ≤ perBetCap r ∧
    cap_stake r raw g t l ≤ remaining_daily_risk r ∧
    cap_stake r raw g t l ≤ remainingGame r g ∧
    cap_stake r raw g t l ≤ remainingTeam r t := by
  rw [cap_stake_eq]
  have h3 : min (min (min (min raw (perBetCap r)) (remaining_daily_risk r))
      (remainingGame r g)) (remainingTeam r t) ≤
      min (min (min raw (perBetCap r)) (remaining_daily_risk r))
        (remainingGame r g) := min_le_left _ _
  have h2 : min (min (min (min raw (perBetCap r)) (remaining_daily_risk r))
      (remainingGame r g)) (remainingTeam r t) ≤
      min (min raw (perBetCap r)) (remaining_daily_risk r) :=
    h3.trans (min_le_left _ _)
  have h1 : min (min (min (min raw (perBetCap r)) (remaining_daily_risk r))
      (remainingGame r g)) (remainingTeam r t) ≤ min raw (perBetCap r) :=
    h2.trans (min_le_left _ _)
  refine ⟨max_le hraw (h1.trans (min_le_left _ _)),
    le_max_left _ _,
    max_le hbet (h1.trans (min_le_right _ _)),
    max_le (remaining_daily_risk_nonneg r) (h2.trans (min_le_right _ _)),
    max_le (remainingGame_nonneg r g) (h3.trans (min_le_right _ _)),
    max_le (remainingTeam_nonneg r t) (min_le_right _ _)⟩

/-- Witness for C6 (amended): on the concrete engine with bankroll 10000
a raw stake of 150 stays within every bound. -/
theorem cap_stake_bounds_witness :
    cap_stake sampleEngine 150 "g" "t" "l" ≤ 150 ∧
    0 ≤ cap_stake sampleEngine 150 "g" "t" "l" ∧
    cap_stake sampleEngine 150 "g" "t" "l" ≤ perBetCap sampleEngine ∧
    cap_stake sampleEngine 150 "g" "t" "l" ≤ remaining_daily_risk sampleEngine ∧
    cap_stake sampleEngine 150 "g" "t" "l" ≤ remainingGame sampleEngine "g" ∧
    cap_stake sampleEngine 150 "g" "t" "l" ≤ remainingTeam sampleEngine "t" :=
  cap_stake_bounds sampleEngine 150 "g" "t" "l" (by norm_num)
    (by norm_num [perBetCap, sampleEngine, update_from_positions,
      RiskEngine.init, sampleConfig])

/-- Folding positions into the engine never changes the configuration. -/
lemma foldl_applyPosition_config (ps : List Position) :
    ∀ s : RiskEngine, (ps.foldl applyPosition s).config = s.config := by
  induction ps with
  | nil => intro s; rfl
  | cons p ps ih =>
    intro s
    rw [List.foldl_cons, ih]
    rfl

/-- `update_from_positions` never changes the configuration. -/
lemma update_from_positions_config (r : RiskEngine) (ps : List Position)
    (b : ℚ) : (update_from_positions r ps b).config = r.config :=
  foldl_applyPosition_config ps _

/-- The state after `update_from_positions` depends on the prior state
only through its configuration. -/
lemma update_from_positions_congr (r1 r2 : RiskEngine) (ps : List Position)
    (b : ℚ) (h : r1.config = r2.config) :
    update_from_positions r1 ps b = update_from_positions r2 ps b := by
  unfold update_from_positions
  rw [h]

/-- C7: calling `update_from_positions` twice in a row with the same
positions and bankroll leaves the engine in the identical state: the
three exposure maps and the total daily risk after the second call equal
those after the first (state is rebuilt from scratch, never patched). -/
theorem update_from_positions_idempotent (r : RiskEngine)
    (ps : List Position) (b : ℚ) :
    (update_from_positions (update_from_positions r ps b) ps b).exposure_by_game =
      (update_from_positions r ps b).exposure_by_game ∧
    (update_from_positions (update_from_positions r ps b) ps b).exposure_by_team =
      (update_from_positions r ps b).exposure_by_team ∧
    (update_from_positions (update_from_positions r ps b) ps b).exposure_by_league =
      (update_from_positions r ps b).exposure_by_league ∧
    (update_from_positions (update_from_positions r ps b) ps b).total_daily_risk =
      (update_from_positions r ps b).total_daily_risk := by
  have h := update_from_positions_congr (update_from_positions r ps b) r ps b
    (update_from_positions_config r ps b)
  exact ⟨congrArg RiskEngine.exposure_by_game h,
    congrArg RiskEngine.exposure_by_team h,
    congrArg RiskEngine.exposure_by_league h,
    congrArg RiskEngine.total_daily_risk h⟩

/-- C3 diverges on the code: at fair probability 1/2 with a present
research probability of exactly 1 and HIGH confidence, the blend inside
`calc_edge` falls back to the fair probability (its guard requires the
research probability strictly inside (0,1)), while the blend recomputed
in the orchestrator loop before Kelly sizing has no such guard and
returns 0.85*1 + 0.15*(1/2) = 37/40; the two blended probabilities are
not numerically identical. -/
theorem edge_and_runner_blends_diverge :
    edgeCombinedProb (1/2) (some 1) (some "HIGH") = 1/2 ∧
    runnerCombinedProb (1/2) (some 1) (some "HIGH") = 37/40 ∧
    edgeCombinedProb (1/2) (some 1) (some "HIGH") ≠
      runnerCombinedProb (1/2) (some 1) (some "HIGH") := by
  have h1 : edgeCombinedProb (1/2) (some 1) (some "HIGH") = 1/2 := by
    simp [edgeCombinedProb]
  have h2 : runnerCombinedProb (1/2) (some 1) (some "HIGH") = 37/40 := by
    simp [runnerCombinedProb]
    norm_num
  refine ⟨h1, h2, ?_⟩
  rw [h1, h2]
  norm_num

/-- A value that is strictly positive and at most `max 0 x` is at most
`x` itself. -/
lemma le_of_pos_le_max_zero {s x : ℚ} (hs : 0 < s) (h : s ≤ max 0 x) :
    s ≤ x := by
  rcases le_or_lt x 0 with hx | hx
  · rw [max_eq_left hx] at h
    linarith
  · rw [max_eq_right hx.le] at h
    exact h

/-- A strictly positive capped stake passes the risk gate, for every
engine state. -/
lemma capStake_pos_passes (r : RiskEngine) (raw : ℚ) (g t l : String)
    (h : 0 < cap_stake r raw g t l) :
    can_take_trade r (cap_stake r raw g t l) g t l = true := by
  have heq := cap_stake_eq r raw g t l
  set m := min (min (min (min raw (perBetCap r)) (remaining_daily_risk r))
    (remainingGame r g)) (remainingTeam r t) with hm
  have hmpos : 0 < m := by
    by_contra hneg
    push_neg at hneg
    rw [heq, max_eq_left hneg] at h
    exact lt_irrefl 0 h
  have hsm : cap_stake r raw g t l = m := by
    rw [heq]
    exact max_eq_right hmpos.le
  have h3 : m ≤ min (min (min raw (perBetCap r)) (remaining_daily_risk r))
      (remainingGame r g) := min_le_left _ _
  have hrt : m ≤ remainingTeam r t := min_le_right _ _
  have hrg : m ≤ remainingGame r g := h3.trans (min_le_right _ _)
  have hrd : m ≤ remaining_daily_risk r :=
    (h3.trans (min_le_left _ _)).trans (min_le_right _ _)
  have hd : m ≤ r.config.max_daily_risk_pct * r.bankroll - r.total_daily_risk :=
    le_of_pos_le_max_zero hmpos hrd
  have hgm : m ≤ r.config.max_per_game_pct * r.bankroll - r.exposure_by_game g :=
    le_of_pos_le_max_zero hmpos hrg
  have htm : m ≤ r.config.max_per_team_pct * r.bankroll - r.exposure_by_team t :=
    le_of_pos_le_max_zero hmpos hrt
  rw [hsm, canTakeTrade_true_iff]
  exact ⟨by linarith, by linarith, by linarith⟩

/-- C9: on every engine state produced by `update_from_positions`, a
strictly positive capped stake is never rejected by the risk gate for
the same game and team. -/
theorem capped_stake_passes_gate (r0 : RiskEngine) (ps : List Position)
    (b raw : ℚ) (g t l : String)
    (h : 0 < cap_stake (update_from_positions r0 ps b) raw g t l) :
    can_take_trade (update_from_positions r0 ps b)
      (cap_stake (update_from_positions r0 ps b) raw g t l) g t l = true :=
  capStake_pos_passes (update_from_positions r0 ps b) raw g t l h

/-- Witness for C9: the concrete engine with bankroll 10000 caps a raw
stake of 5 to a positive value that the gate then accepts. -/
theorem capped_stake_passes_gate_witness :
    0 < cap_stake (update_from_positions (RiskEngine.init sampleConfig) []
      10000) 5 "g" "t" "l" ∧
    can_take_trade (update_from_positions (RiskEngine.init sampleConfig) []
        10000)
      (cap_stake (update_from_positions (RiskEngine.init sampleConfig) []
        10000) 5 "g" "t" "l") "g" "t" "l" = true := by
  have hpos : 0 < cap_stake (update_from_positions (RiskEngine.init
      sampleConfig) [] 10000) 5 "g" "t" "l" := by
    norm_num [cap_stake, update_from_positions, RiskEngine.init,
      sampleConfig, remaining_daily_risk]
  exact ⟨hpos,
    capped_stake_passes_gate (RiskEngine.init sampleConfig) [] 10000 5
      "g" "t" "l" hpos⟩

/-- Sum of a pointwise sum of two maps splits. -/
lemma sum_map_add (S : List String) (f g : String → ℚ) :
    (S.map (fun k => f k + g k)).sum = (S.map f).sum + (S.map g).sum := by
  induction S with
  | nil => simp
  | cons a S ih =>
    simp only [List.map_cons, List.sum_cons, ih]
    ring

/-- A one-hot sum over keys not containing the hot key vanishes. -/
lemma sum_map_ite_of_not_mem (S : List String) (a : String) (v : ℚ)
    (ha : a ∉ S) :
    (S.map (fun k => if a = k then v else 0)).sum = 0 := by
  induction S with
  | nil => simp
  | cons b S ih =>
    simp only [List.map_cons, List.sum_cons]
    rw [if_neg (by rintro rfl; exact ha (List.mem_cons_self a S)),
      ih (fun h => ha (List.mem_cons_of_mem b h))]
    norm_num

/-- A one-hot sum over a duplicate-free key list containing the hot key
is the hot value. -/
lemma sum_map_ite_of_mem (S : List String) (a : String) (v : ℚ)
    (ha : a ∈ S) (hnd : S.Nodup) :
    (S.map (fun k => if a = k then v else 0)).sum = v := by
  induction S with
  | nil => cases ha
  | cons b S ih =>
    simp only [List.map_cons, List.sum_cons]
    rcases List.mem_cons.mp ha with rfl | hmem
    · rw [if_pos rfl,
        sum_map_ite_of_not_mem S a v (List.nodup_cons.mp hnd).1]
      ring
    · have hab : a ≠ b := by
        rintro rfl
        exact (List.nodup_cons.mp hnd).1 hmem
      rw [if_neg hab, ih hmem (List.nodup_cons.mp hnd).2]
      ring

/-- Partitioning the positions by any key and summing the per-key fiber
sums over a duplicate-free covering key list recovers the total sum of
losses. -/
lemma sum_fibers_eq_total (key : Position → String) :
    ∀ (ps : List Position) (S : List String), S.Nodup →
      (∀ p ∈ ps, key p ∈ S) →
      (S.map (fun k =>
        ((ps.filter (fun p => key p == k)).map positionLoss).sum)).sum
        = (ps.map positionLoss).sum := by
  intro ps
  induction ps with
  | nil =>
    intro S _ _
    simp
  | cons p ps ih =>
    intro S hnd hmem
    have hterm : ∀ k,
        (((p :: ps).filter (fun q => key q == k)).map positionLoss).sum
          = (if key p = k then positionLoss p else 0)
            + ((ps.filter (fun q => key q == k)).map positionLoss).sum := by
      intro k
      by_cases h : key p = k
      · simp [List.filter_cons, h]
      · simp [List.filter_cons, h]
    have hfun : (fun k =>
        (((p :: ps).filter (fun q => key q == k)).map positionLoss).sum)
          = (fun k => (if key p = k then positionLoss p else 0)
            + ((ps.filter (fun q => key q == k)).map positionLoss).sum) :=
      funext hterm
    rw [hfun, sum_map_add,
      sum_map_ite_of_mem S (key p) (positionLoss p)
        (hmem p (List.mem_cons_self p ps)) hnd,
      ih S hnd (fun q hq => hmem q (List.mem_cons_of_mem p hq))]
    simp

/-- Folding positions accumulates per-game exposure as the fiber sum of
losses over positions with that game id. -/
lemma foldl_exposure_by_game :
    ∀ (ps : List Position) (s : RiskEngine) (g : String),
      (ps.foldl applyPosition s).exposure_by_game g
        = s.exposure_by_game g
          + ((ps.filter (fun p => p.game_id == g)).map positionLoss).sum := by
  intro ps
  induction ps with
  | nil =>
    intro s g
    simp
  | cons p ps ih =>
    intro s g
    by_cases h : p.game_id = g
    · subst h
      simp [List.foldl_cons, ih, applyPosition, List.filter_cons]
      ring
    · simp [List.foldl_cons, ih, applyPosition, List.filter_cons, h,
        Ne.symm h]

/-- Folding positions accumulates per-team exposure as the fiber sum of
losses over positions with that team. -/
lemma foldl_exposure_by_team :
    ∀ (ps : List Position) (s : RiskEngine) (t : String),
      (ps.foldl applyPosition s).exposure_by_team t
        = s.exposure_by_team t
          + ((ps.filter (fun p => p.team == t)).map positionLoss).sum := by
  intro ps
  induction ps with
  | nil =>
    intro s t
    simp
  | cons p ps ih =>
    intro s t
    by_cases h : p.team = t
    · subst h
      simp [List.foldl_cons, ih, applyPosition, List.filter_cons]
      ring
    · simp [List.foldl_cons, ih, applyPosition, List.filter_cons, h,
        Ne.symm h]

/-- Folding positions accumulates per-league exposure as the fiber sum
of losses over positions with that league. -/
lemma foldl_exposure_by_league :
    ∀ (ps : List Position) (s : RiskEngine) (l : String),
      (ps.foldl applyPosition s).exposure_by_league l
        = s.exposure_by_league l
          + ((ps.filter (fun p => p.league == l)).map positionLoss).sum := by
  intro ps
  induction ps with
  | nil =>
    intro s l
    simp
  | cons p ps ih =>
    intro s l
    by_cases h : p.league = l
    · subst h
      simp [List.foldl_cons, ih, applyPosition, List.filter_cons]
      ring
    · simp [List.foldl_cons, ih, applyPosition, List.filter_cons, h,
        Ne.symm h]

/-- Folding positions accumulates the total daily risk as the sum of all
losses. -/
lemma foldl_total_daily_risk :
    ∀ (ps : List Position) (s : RiskEngine),
      (ps.foldl applyPosition s).total_daily_risk
        = s.total_daily_risk + (ps.map positionLoss).sum := by
  intro ps
  induction ps with
  | nil =>
    intro s
    simp
  | cons p ps ih =>
    intro s
    simp [List.foldl_cons, ih, applyPosition]
    ring

/-- After `update_from_positions`, per-game exposure is the fiber sum of
losses. -/
lemma update_exposure_by_game (r : RiskEngine) (ps : List Position)
    (b : ℚ) (g : String) :
    (update_from_positions r ps b).exposure_by_game g
      = ((ps.filter (fun p => p.game_id == g)).map positionLoss).sum := by
  unfold update_from_positions
  rw [foldl_exposure_by_game]
  simp

/-- After `update_from_positions`, per-team exposure is the fiber sum of
losses. -/
lemma update_exposure_by_team (r : RiskEngine) (ps : List Position)
    (b : ℚ) (t : String) :
    (update_from_positions r ps b).exposure_by_team t
      = ((ps.filter (fun p => p.team == t)).map positionLoss).sum := by
  unfold update_from_positions
  rw [foldl_exposure_by_team]
  simp

/-- After `update_from_positions`, per-league exposure is the fiber sum
of losses. -/
lemma update_exposure_by_league (r : RiskEngine) (ps : List Position)
    (b : ℚ) (l : String) :
    (update_from_positions r ps b).exposure_by_league l
      = ((ps.filter (fun p => p.league == l)).map positionLoss).sum := by
  unfold update_from_positions
  rw [foldl_exposure_by_league]
  simp

/-- After `update_from_positions`, the total daily risk is the sum of
all position losses. -/
lemma update_total_daily_risk (r : RiskEngine) (ps : List Position)
    (b : ℚ) :
    (update_from_positions r ps b).total_daily_risk
      = (ps.map positionLoss).sum := by
  unfold update_from_positions
  rw [foldl_total_daily_risk]
  simp

/-- C10: after every `update_from_positions` call the total daily risk
equals the sum of the per-position losses (max_loss when strictly
positive, else quantity times average price) and equals the sum of the
values of each of the three exposure maps (summed over the distinct keys
occurring in the position list; all other keys carry 0). The read-only
operations `can_take_trade`, `remaining_daily_risk` and `cap_stake` are
pure functions of the state in this embedding, so they preserve the
invariant by construction. -/
theorem update_exposure_sums_invariant (r0 : RiskEngine)
    (ps : List Position) (b : ℚ) :
    (update_from_positions r0 ps b).total_daily_risk
      = (ps.map positionLoss).sum ∧
    ((ps.map Position.game_id).dedup.map
        (update_from_positions r0 ps b).exposure_by_game).sum
      = (update_from_positions r0 ps b).total_daily_risk ∧
    ((ps.map Position.team).dedup.map
        (update_from_positions r0 ps b).exposure_by_team).sum
      = (update_from_positions r0 ps b).total_daily_risk ∧
    ((ps.map Position.league).dedup.map
        (update_from_positions r0 ps b).exposure_by_league).sum
      = (update_from_positions r0 ps b).total_daily_risk := by
  have htot := update_total_daily_risk r0 ps b
  refine ⟨htot, ?_, ?_, ?_⟩
  · have hfun : (update_from_positions r0 ps b).exposure_by_game
        = fun g => ((ps.filter (fun p => p.game_id == g)).map
          positionLoss).sum :=
      funext (update_exposure_by_game r0 ps b)
    rw [hfun, htot]
    exact sum_fibers_eq_total Position.game_id ps
      ((ps.map Position.game_id).dedup) (List.nodup_dedup _)
      (fun p hp => List.mem_dedup.mpr (List.mem_map_of_mem _ hp))
  · have hfun : (update_from_positions r0 ps b).exposure_by_team
        = fun t => ((ps.filter (fun p => p.team == t)).map
          positionLoss).sum :=
      funext (update_exposure_by_team r0 ps b)
    rw [hfun, htot]
    exact sum_fibers_eq_total Position.team ps
      ((ps.map Position.team).dedup) (List.nodup_dedup _)
      (fun p hp => List.mem_dedup.mpr (List.mem_map_of_mem _ hp))
  · have hfun : (update_from_positions r0 ps b).exposure_by_league
        = fun l => ((ps.filter (fun p => p.league == l)).map
          positionLoss).sum :=
      funext (update_exposure_by_league r0 ps b)
    rw [hfun, htot]
    exact sum_fibers_eq_total Position.league ps
      ((ps.map Position.league).dedup) (List.nodup_dedup _)
      (fun p hp => List.mem_dedup.mpr (List.mem_map_of_mem _ hp))
